import Mathlib

/-!
Verification development for the SearXNG proxy server (src/server.js).

The JavaScript source is shallowly embedded: pure fragments become Lean
functions over explicit data; the network is an oracle mapping a URL to the
raw fetch outcome; the DOM produced by cheerio.load is a tree of element and
text nodes.  JS strings are modelled by Lean `String` (a wrapper around
`List Char`); JS `substring`/`includes`/`startsWith`/`trim`/`toLowerCase`
are re-implemented below over the character list so that every definition
is executable and kernel-reducible.  UTF-16 code-unit counting versus
Unicode code-point counting is the only intentional divergence; all inputs
considered here are ASCII, where the two coincide.
-/

/-- JS `s.substring(0, n)`: the first `n` characters of `s` (all of `s` when
`n ≥ s.length`). -/
def jsSubstring (s : String) (n : Nat) : String := ⟨s.data.take n⟩

/-- Prefix test on character lists, used for the substring search below. -/
def chPrefix : List Char → List Char → Bool
  | [], _ => true
  | _ :: _, [] => false
  | p :: ps, c :: cs => p = c && chPrefix ps cs

/-- Substring occurrence test on character lists. -/
def chSub (pat : List Char) : List Char → Bool
  | [] => pat.isEmpty
  | c :: t => chPrefix pat (c :: t) || chSub pat t

/-- JS `s.includes(pat)`. -/
def jsIncludes (s pat : String) : Bool := chSub pat.data s.data

/-- JS `s.startsWith(pat)`. -/
def jsStartsWith (s pat : String) : Bool := chPrefix pat.data s.data

/-- JS `s.endsWith(pat)`. -/
def jsEndsWith (s pat : String) : Bool := chPrefix pat.data.reverse s.data.reverse

/-- JS `s.toLowerCase()` (ASCII-faithful). -/
def jsLower (s : String) : String := ⟨s.data.map Char.toLower⟩

/-- JS `s.trim()`: strip leading and trailing whitespace. -/
def jsTrim (s : String) : String :=
  ⟨((s.data.dropWhile Char.isWhitespace).reverse.dropWhile Char.isWhitespace).reverse⟩

/-- One pass of `replace(/\s+/g, ' ')`: each maximal whitespace run becomes a
single space.  `prevWs` records whether the previous character was part of a
whitespace run already emitted. -/
def squashWsAux : Bool → List Char → List Char
  | _, [] => []
  | prevWs, c :: cs =>
    if c.isWhitespace then
      if prevWs then squashWsAux true cs else ' ' :: squashWsAux true cs
    else c :: squashWsAux false cs

/-- JS `s.replace(/\s+/g, ' ')`. -/
def collapseWs (s : String) : String := ⟨squashWsAux false s.data⟩

/-- Tokens of `s.split(/\s+/)`: the maximal non-whitespace runs, in order.
(The JS call can additionally yield empty-string artefacts at the ends; those
can never satisfy a `length > 3` test, the only use made of this split.) -/
def wsTokensAux (cur : List Char) : List Char → List String
  | [] => if cur.isEmpty then [] else [⟨cur.reverse⟩]
  | c :: t =>
    if c.isWhitespace then
      if cur.isEmpty then wsTokensAux [] t else (⟨cur.reverse⟩ : String) :: wsTokensAux [] t
    else wsTokensAux (c :: cur) t

/-- JS `s.split(/\s+/)`, restricted to its non-empty tokens. -/
def jsSplitWs (s : String) : List String := wsTokensAux [] s.data

/-- Digits of a decimal numeral to a natural number. -/
def digitsToNat (l : List Char) : Nat :=
  l.foldl (fun acc c => acc * 10 + (c.toNat - '0'.toNat)) 0

-- ===== URL model =====

/-- Shallow model of a WHATWG `URL` as produced by `new URL(...)` in Node:
only the components the server reads (protocol, hostname, pathname).  Query
strings, fragments and dot-segment normalisation are not modelled; every URL
exercised by the theorems below is a plain absolute `http://host/path` URL,
where the model agrees with Node. -/
structure JsUrl where
  scheme : String
  hostname : String
  path : String
deriving DecidableEq, Repr

/-- Serialisation (`url.href`) of the model. -/
def urlHref (u : JsUrl) : String := u.scheme ++ "://" ++ u.hostname ++ u.path

/-- Parse an absolute `http://` / `https://` URL; `none` otherwise
(`new URL` would throw for strings that are not valid absolute URLs). -/
def parseHttpAbs (s : String) : Option JsUrl :=
  if jsStartsWith s "http://" then some (mkParts "http" ⟨s.data.drop 7⟩)
  else if jsStartsWith s "https://" then some (mkParts "https" ⟨s.data.drop 8⟩)
  else none
where
  mkParts (sch : String) (rest : String) : JsUrl :=
    let host : List Char := rest.data.takeWhile (fun c => ¬ c = '/')
    let p : List Char := rest.data.drop host.length
    ⟨sch, ⟨host⟩, if p.isEmpty then "/" else ⟨p⟩⟩

/-- Does `s` begin with a URL scheme (`letter (letter|digit|+|-|.)* :`)? -/
def hasScheme (s : String) : Bool :=
  match s.data with
  | [] => false
  | c :: rest =>
    c.isAlpha && chPrefix [':']
      (rest.dropWhile (fun d => d.isAlpha || d.isDigit || d = '+' || d = '-' || d = '.'))

/-- Scheme part (up to the colon) of a string satisfying `hasScheme`. -/
def schemeOf (s : String) : String :=
  ⟨s.data.takeWhile (fun c => ¬ c = ':')⟩

/-- Directory part of a path: everything up to and including the last `/`. -/
def dirOf (p : String) : String :=
  let r := p.data.reverse.dropWhile (fun c => ¬ c = '/')
  if r.isEmpty then "/" else ⟨r.reverse⟩

/-- Model of `new URL(href, base)`.  Absolute http(s) references parse on
their own; protocol-relative references take the base scheme; other schemes
(`mailto:` …) produce an empty hostname, exactly enough for the server's
same-hostname test to reject them, as Node does; root-relative and
path-relative references resolve against the base. -/
def resolveHref (base : JsUrl) (href : String) : JsUrl :=
  if jsStartsWith href "http://" || jsStartsWith href "https://" then
    (parseHttpAbs href).getD base
  else if jsStartsWith href "//" then
    (parseHttpAbs (base.scheme ++ ":" ++ href)).getD base
  else if hasScheme href then
    ⟨schemeOf href, "", ""⟩
  else if jsStartsWith href "/" then
    ⟨base.scheme, base.hostname, href⟩
  else if href = "" then base
  else ⟨base.scheme, base.hostname, dirOf base.path ++ href⟩

-- ===== HTML document model (cheerio DOM) =====

mutual
/-- A DOM node as seen through cheerio: an element with a tag, an attribute
list and children, or a text node. -/
inductive HNode where
  | elem : String → List (String × String) → HForest → HNode
  | text : String → HNode
deriving DecidableEq, Repr

/-- A sequence of sibling DOM nodes. -/
inductive HForest where
  | nil : HForest
  | cons : HNode → HForest → HForest
deriving DecidableEq, Repr
end

/-- Build a forest from a list of nodes. -/
def forestOf : List HNode → HForest
  | [] => .nil
  | n :: ns => .cons n (forestOf ns)

/-- First value of attribute `name` on an element (`$(el).attr(name)`);
`none` on text nodes or absent attributes. -/
def attrOf (n : HNode) : String → Option String :=
  fun name =>
    match n with
    | .text _ => none
    | .elem _ attrs _ => (attrs.find? (fun p => p.1 = name)).map Prod.snd

/-- Tag of an element node, `none` for text. -/
def tagOf : HNode → Option String
  | .elem t _ _ => some t
  | .text _ => none

/-- The class tokens of an element (the `class` attribute split on
whitespace), as used by `.foo` class selectors. -/
def classTokens (n : HNode) : List String :=
  match attrOf n "class" with
  | some s => jsSplitWs s
  | none => []

mutual
/-- Concatenated text of a node's subtree (`$(el).text()`). -/
def textOfN : HNode → String
  | .elem _ _ ch => textOfF ch
  | .text s => s

/-- Concatenated text of a forest. -/
def textOfF : HForest → String
  | .nil => ""
  | .cons n ns => textOfN n ++ textOfF ns
end

mutual
/-- All element nodes of a subtree matching predicate `p`, in document
(pre-)order — the matched set of a cheerio selector. -/
def selN (p : HNode → Bool) : HNode → List HNode
  | .text _ => []
  | .elem t a ch => (if p (.elem t a ch) then [.elem t a ch] else []) ++ selF p ch

/-- All element nodes of a forest matching `p`, in document order. -/
def selF (p : HNode → Bool) : HForest → List HNode
  | .nil => []
  | .cons n ns => selN p n ++ selF p ns
end

mutual
/-- `$(sel).remove()` on a single node: delete the whole subtree when the
node matches `p`, otherwise recurse into the children. -/
def removeN (p : HNode → Bool) : HNode → Option HNode
  | .text s => some (.text s)
  | .elem t a ch =>
    if p (.elem t a ch) then none else some (.elem t a (removeF p ch))

/-- `$(sel).remove()` over a forest. -/
def removeF (p : HNode → Bool) : HForest → HForest
  | .nil => .nil
  | .cons n ns =>
    match removeN p n with
    | none => removeF p ns
    | some m => .cons m (removeF p ns)
end

mutual
/-- The text-node contents of a subtree, as a list, in document order. -/
def textsN : HNode → List String
  | .text s => [s]
  | .elem _ _ ch => textsF ch

/-- The text-node contents of a forest. -/
def textsF : HForest → List String
  | .nil => []
  | .cons n ns => textsN n ++ textsF ns
end

mutual
/-- The text-node contents of a subtree that do NOT originate from any node
matching `p` (nodes matching `p`, and everything below them, are skipped). -/
def textsOutsideN (p : HNode → Bool) : HNode → List String
  | .text s => [s]
  | .elem t a ch =>
    if p (.elem t a ch) then [] else textsOutsideF p ch

/-- The non-`p`-originating text contents of a forest. -/
def textsOutsideF (p : HNode → Bool) : HForest → List String
  | .nil => []
  | .cons n ns => textsOutsideN p n ++ textsOutsideF p ns
end

mutual
/-- Tags of all element nodes of a subtree. -/
def elemTagsN : HNode → List String
  | .text _ => []
  | .elem t _ ch => t :: elemTagsF ch

/-- Tags of all element nodes of a forest. -/
def elemTagsF : HForest → List String
  | .nil => []
  | .cons n ns => elemTagsN n ++ elemTagsF ns
end

/-- Text content of an `Option`-al removed node. -/
def optTexts : Option HNode → List String
  | none => []
  | some n => textsN n

mutual
/-- After removal, every text of the cleaned node is a text of the original
that does not lie under a node matching `p` — and conversely. -/
theorem texts_removeN (p : HNode → Bool) :
    ∀ n : HNode, optTexts (removeN p n) = textsOutsideN p n
  | .text s => by simp [removeN, optTexts, textsN, textsOutsideN]
  | .elem t a ch => by
    by_cases h : p (.elem t a ch)
    · simp [removeN, h, optTexts, textsOutsideN]
    · simp [removeN, h, optTexts, textsN, textsOutsideN, texts_removeF p ch]

/-- Forest version of `texts_removeN`. -/
theorem texts_removeF (p : HNode → Bool) :
    ∀ f : HForest, textsF (removeF p f) = textsOutsideF p f
  | .nil => by simp [removeF, textsF, textsOutsideF]
  | .cons n ns => by
    have hn := texts_removeN p n
    have hns := texts_removeF p ns
    cases hrem : removeN p n with
    | none =>
      simp [removeF, hrem, hns, textsOutsideF]
      rw [hrem] at hn
      simp [optTexts] at hn
      simp [← hn]
    | some m =>
      rw [hrem] at hn
      simp [optTexts] at hn
      simp [removeF, hrem, textsF, hn, hns, textsOutsideF]
end

mutual
/-- Removal really removes: no element matching `p` survives in a cleaned
node. -/
theorem removeN_clean (p : HNode → Bool) :
    ∀ n m : HNode, removeN p n = some m → ∀ t ∈ elemTagsN m, ∃ n' : HNode,
      p n' = false ∧ tagOf n' = some t
  | .text s => by intro m h; simp [removeN] at h; subst h; simp [elemTagsN]
  | .elem tg a ch => by
    intro m h
    by_cases hp : p (.elem tg a ch)
    · simp [removeN, hp] at h
    · simp [removeN, hp] at h
      subst h
      intro t ht
      simp [elemTagsN] at ht
      rcases ht with h1 | h2
      · exact ⟨.elem tg a ch, by simp [hp], by simp [tagOf, h1]⟩
      · exact removeF_clean p ch t h2

/-- Forest version of `removeN_clean`. -/
theorem removeF_clean (p : HNode → Bool) :
    ∀ f : HForest, ∀ t ∈ elemTagsF (removeF p f), ∃ n' : HNode,
      p n' = false ∧ tagOf n' = some t
  | .nil => by simp [removeF, elemTagsF]
  | .cons n ns => by
    intro t ht
    cases hrem : removeN p n with
    | none =>
      rw [removeF, hrem] at ht
      exact removeF_clean p ns t ht
    | some m =>
      rw [removeF, hrem] at ht
      simp [elemTagsF] at ht
      rcases ht with h1 | h2
      · exact removeN_clean p n m hrem t h1
      · exact removeF_clean p ns t h2
end

-- ===== Crawl-path extractor (extractPageContent, src/server.js 784-893) =====

/-- Noise tags removed by both extraction variants
(`script, style, nav, footer, header, aside, iframe, noscript`). -/
def noiseTags : List String :=
  ["script", "style", "nav", "footer", "header", "aside", "iframe", "noscript"]

/-- Noise classes additionally removed by the crawl variant
(`.advertisement, .ad, .sidebar, .menu, .navigation`). -/
def noiseClasses : List String :=
  ["advertisement", "ad", "sidebar", "menu", "navigation"]

/-- Selector of the single-page `/fetch` noise removal (tags only). -/
def fetchNoise (n : HNode) : Bool :=
  match tagOf n with
  | some t => noiseTags.contains t
  | none => false

/-- Selector of the crawl-variant noise removal (tags plus classes). -/
def crawlNoise (n : HNode) : Bool :=
  fetchNoise n || (classTokens n).any (fun c => noiseClasses.contains c)

/-- Tag selector (`$('p')`, `$('article')`, …). -/
def selTag (t : String) (n : HNode) : Bool := tagOf n = some t

/-- Class selector (`$('.content')`, …). -/
def selClass (c : String) (n : HNode) : Bool := (classTokens n).contains c

/-- Id selector (`$('#content')`). -/
def selId (i : String) (n : HNode) : Bool := attrOf n "id" = some i

/-- `$(sel).text().trim()` for a selector predicate: the concatenated
subtree text of every matched element, trimmed. -/
def selText (p : HNode → Bool) (f : HForest) : String :=
  jsTrim (String.join ((selF p f).map textOfN))

/-- Title resolution, `$('title').text().trim() || $('h1').first().text().trim()`
(lines 394 and 817). -/
def titleOf (f : HForest) : String :=
  let t := selText (selTag "title") f
  if t = "" then
    match selF (selTag "h1") f with
    | [] => ""
    | h :: _ => jsTrim (textOfN h)
  else t

/-- The main-content candidate selectors, in priority order (line 821). -/
def mainSelectors : List (HNode → Bool) :=
  [selTag "article", selTag "main", selClass "content", selClass "post-content",
   selClass "entry-content", selId "content", selClass "article-body"]

/-- Main-content selection over the (already noise-cleaned) document
(lines 820-836): keep the longest non-empty candidate text, fall back to the
body text when shorter than 200 characters, then collapse whitespace. -/
def crawlMainContent (cleaned : HForest) : String :=
  let best := mainSelectors.foldl
    (fun acc p =>
      let c := selText p cleaned
      if ¬ c = "" ∧ c.length > acc.length then c else acc) ""
  let withBody := if best = "" ∨ best.length < 200 then selText (selTag "body") cleaned else best
  jsTrim (collapseWs withBody)

/-- Paragraph extraction (lines 839-845): `<p>` texts with
`50 < length < 2000`, in document order (capped at 10 by the caller). -/
def crawlParagraphs (cleaned : HForest) : List String :=
  ((selF (selTag "p") cleaned).map (fun n => jsTrim (textOfN n))).filter
    (fun t => ¬ t = "" ∧ t.length > 50 ∧ t.length < 2000)

/-- An internal link discovered on a page. -/
structure ILink where
  url : String
  text : String
deriving DecidableEq, Repr

/-- The navigation/boilerplate stoplist regex
`/login|logout|register|signup|cart|checkout|search|contact|about|privacy|terms|cookie/i`
(line 862), applied as a case-insensitive substring test. -/
def stopWords : List String :=
  ["login", "logout", "register", "signup", "cart", "checkout", "search",
   "contact", "about", "privacy", "terms", "cookie"]

/-- `skipPatterns.test(s)`. -/
def stopTest (s : String) : Bool := stopWords.any (fun w => jsIncludes (jsLower s) w)

/-- Internal-link discovery (lines 848-874): same-hostname anchors whose
trimmed text has length strictly between 5 and 100 and whose pathname and
text avoid the stoplist. -/
def crawlLinks (cleaned : HForest) (base : JsUrl) : List ILink :=
  (selF (fun n => (tagOf n = some "a") ∧ ¬ attrOf n "href" = none) cleaned).foldr
    (fun a acc =>
      match attrOf a "href" with
      | none => acc
      | some href =>
        if href = "" then acc  -- `if (!href) return`
        else
          let lu := resolveHref base href
          if lu.hostname = base.hostname then
            let t := jsTrim (textOfN a)
            if ¬ t = "" ∧ t.length > 5 ∧ t.length < 100 then
              if ¬ stopTest lu.path ∧ ¬ stopTest t then ⟨urlHref lu, t⟩ :: acc else acc
            else acc
          else acc)
    []

/-- The successful payload of `extractPageContent` (lines 876-884). -/
structure PageData where
  url : String
  title : String
  content : String
  paragraphs : List String
  internalLinks : List ILink
  contentLength : Nat
deriving DecidableEq, Repr

/-- Result of `extractPageContent`: either the extracted data or the error
string produced by its failure paths. -/
inductive PageResult where
  | ok : PageData → PageResult
  | fail : String → PageResult
deriving DecidableEq, Repr

/-- The raw outcome of the timed `fetch` inside `extractPageContent`: the
abort fired (`AbortError`), the connection failed with some error message,
or a response arrived with a status, a `Content-Type` header and a parsed
HTML body. -/
inductive FetchOutcome where
  | aborted : FetchOutcome
  | netError : String → FetchOutcome
  | response : Nat → String → HForest → FetchOutcome

/-- Pure part of `extractPageContent(url)` (lines 784-893) given the fetch
outcome.  Failure paths in source order: non-2xx status → `HTTP <status>`
(line 802), non-HTML content type → `Not HTML content` (line 807), and in
the catch clause an `AbortError` → `Timeout`, any other exception message
otherwise (line 890).  An unparseable page URL makes `new URL(url)` throw
`Invalid URL` mid-extraction (line 849), failing the whole call. -/
def extractPageContent (url : String) (o : FetchOutcome) : PageResult :=
  match o with
  | .aborted => .fail "Timeout"
  | .netError msg => .fail msg
  | .response status ct body =>
    if ¬ (200 ≤ status ∧ status ≤ 299) then .fail ("HTTP " ++ toString status)
    else if ¬ (jsIncludes ct "text/html" ∨ jsIncludes ct "application/xhtml") then
      .fail "Not HTML content"
    else
      match parseHttpAbs url with
      | none => .fail "Invalid URL"
      | some base =>
        let cleaned := removeF crawlNoise body
        let mainContent := crawlMainContent cleaned
        .ok
          { url := url
            title := titleOf cleaned
            content := jsSubstring mainContent 8000
            paragraphs := (crawlParagraphs cleaned).take 10
            internalLinks := (crawlLinks cleaned base).take 10
            contentLength := mainContent.length }

-- ===== Deep-search crawl controller (/deep-search, src/server.js 906-1053) =====

/-- One ranked result from the SearXNG search collaborator. -/
structure SearchResult where
  url : String
  title : String
  content : String
  engine : String
deriving DecidableEq, Repr

/-- A visited page as recorded in `allContent` (lines 965-973 and 997-1005). -/
structure PageRec where
  url : String
  title : String
  snippet : Option String
  linkText : Option String
  fullContent : String
  paragraphs : List String
  source : Option String
  parentUrl : Option String
  depth : Nat
deriving DecidableEq, Repr

/-- An entry of the crawl's error list (line 1011). -/
structure ErrRec where
  url : String
  error : String
deriving DecidableEq, Repr

/-- The per-request crawl state: `visitedUrls` (a JS `Set`, modelled as the
insertion-ordered duplicate-free list of its elements — elements are only
added under a `contains` guard, so length equals `Set.size`), `allContent`
and `errors`. -/
structure CrawlSt where
  visited : List String
  pages : List PageRec
  errors : List ErrRec
deriving DecidableEq, Repr

/-- The relevance filter (lines 984-988): some query word of length
strictly greater than 3 occurs, case-insensitively, in the link text. -/
def isRelevant (query linkText : String) : Bool :=
  (jsSplitWs (jsLower query)).any
    (fun w => w.length > 3 && jsIncludes (jsLower linkText) w)

/-- Depth-1 expansion over one parent's internal links (lines 976-1009).
`sitePagesVisited` is the loop's per-parent counter: the source declares it
as `const sitePagesVisited = 1` and never updates it, so it is passed along
unchanged here, exactly as the code behaves. -/
def innerLoop (query : String) (maxPagesPerSite : Nat) (oracle : String → FetchOutcome)
    (parentUrl : String) : List ILink → CrawlSt → CrawlSt
  | [], st => st
  | l :: ls, st =>
    let sitePagesVisited := 1
    if sitePagesVisited ≥ maxPagesPerSite then st  -- `break`
    else if st.visited.contains l.url then innerLoop query maxPagesPerSite oracle parentUrl ls st
    else if isRelevant query l.text then
      let st1 : CrawlSt := { st with visited := st.visited ++ [l.url] }
      match extractPageContent l.url (oracle l.url) with
      | .ok d =>
        innerLoop query maxPagesPerSite oracle parentUrl ls
          { st1 with pages := st1.pages ++
              [{ url := l.url, title := d.title, snippet := none, linkText := some l.text,
                 fullContent := d.content, paragraphs := d.paragraphs, source := none,
                 parentUrl := some parentUrl, depth := 1 }] }
      | .fail _ => innerLoop query maxPagesPerSite oracle parentUrl ls st1
    else innerLoop query maxPagesPerSite oracle parentUrl ls st

/-- Depth-0 visit loop over the search results (lines 956-1016). -/
def outerLoop (query : String) (maxDepth maxPagesPerSite : Nat)
    (oracle : String → FetchOutcome) : List SearchResult → CrawlSt → CrawlSt
  | [], st => st
  | r :: rs, st =>
    if st.visited.contains r.url then outerLoop query maxDepth maxPagesPerSite oracle rs st
    else
      let st0 : CrawlSt := { st with visited := st.visited ++ [r.url] }
      match extractPageContent r.url (oracle r.url) with
      | .ok d =>
        let st1 : CrawlSt := { st0 with pages := st0.pages ++
          [{ url := r.url, title := if d.title = "" then r.title else d.title,
             snippet := some r.content, linkText := none, fullContent := d.content,
             paragraphs := d.paragraphs, source := some r.engine, parentUrl := none,
             depth := 0 }] }
        let st2 := if maxDepth > 0 then
            innerLoop query maxPagesPerSite oracle r.url d.internalLinks st1
          else st1
        outerLoop query maxDepth maxPagesPerSite oracle rs st2
      | .fail e =>
        outerLoop query maxDepth maxPagesPerSite oracle rs
          { st0 with errors := st0.errors ++ [⟨r.url, e⟩] }

/-- Run the crawl for one request: visit up to `maxResults` search results
starting from the empty state. -/
def deepSearchRun (query : String) (maxResults maxDepth maxPagesPerSite : Nat)
    (results : List SearchResult) (oracle : String → FetchOutcome) : CrawlSt :=
  outerLoop query maxDepth maxPagesPerSite oracle (results.take maxResults) ⟨[], [], []⟩

/-- The per-page content chunk of the digest (line 1031):
the first 2000 characters, with `...` appended exactly when truncation
occurred. -/
def contentChunk (p : PageRec) : String :=
  jsSubstring p.fullContent 2000 ++ (if p.fullContent.length > 2000 then "..." else "")

/-- The `**Fuente:**` line, emitted only when `page.source` is truthy. -/
def sourceLine (p : PageRec) : String :=
  match p.source with
  | some s => if s = "" then "" else "**Fuente:** " ++ s ++ "\n"
  | none => ""

/-- One page's section of the consolidated digest (lines 1025-1032);
`i` is the zero-based visit index. -/
def pageSection (i : Nat) (p : PageRec) : String :=
  "### " ++ toString (i + 1) ++ ". " ++ p.title ++ "\n" ++
  "**URL:** " ++ p.url ++ "\n" ++ sourceLine p ++ "\n" ++ contentChunk p ++ "\n\n"

/-- Concatenation of a list of strings (the `+=` accumulation of the
`forEach` at lines 1025-1032). -/
def strConcat : List String → String
  | [] => ""
  | s :: rest => s ++ strConcat rest

/-- The untruncated consolidated digest (lines 1022-1032): a header naming
the query, a source count, then each visited page's section in visit order. -/
def digestFull (query : String) (pages : List PageRec) : String :=
  "## Resultados de búsqueda profunda para: \"" ++ query ++ "\"\n\n" ++
  "Fuentes consultadas: " ++ toString pages.length ++ " páginas\n\n" ++
  strConcat (pages.enum.map (fun ip => pageSection ip.1 ip.2))

/-- `consolidatedText` as sent to the caller (line 1041): the digest capped
at 30000 characters. -/
def consolidatedTextOf (query : String) (pages : List PageRec) : String :=
  jsSubstring (digestFull query pages) 30000

/-- The JSON payload of a successful `/deep-search` response (lines
1034-1044).  `elapsedTimeMs` and `searchSuggestions` pass through wall-clock
time and collaborator metadata and carry no content from the crawl. -/
structure DeepSearchResponse where
  success : Bool
  query : String
  totalPagesVisited : Nat
  totalContentExtracted : Nat
  pages : List PageRec
  consolidatedText : String
  errors : Option (List ErrRec)
deriving DecidableEq, Repr

/-- Assemble the response from the final crawl state. -/
def deepSearchResponse (query : String) (maxResults maxDepth maxPagesPerSite : Nat)
    (results : List SearchResult) (oracle : String → FetchOutcome) : DeepSearchResponse :=
  let st := deepSearchRun query maxResults maxDepth maxPagesPerSite results oracle
  { success := true
    query := query
    totalPagesVisited := st.visited.length
    totalContentExtracted := st.pages.length
    pages := st.pages
    consolidatedText := consolidatedTextOf query st.pages
    errors := if st.errors.isEmpty then none else some st.errors }

-- ===== Single-page table extraction (/fetch, src/server.js 406-453) =====

/-- A table cell: whether it is a `<th>`, and its raw text. -/
structure TCell where
  th : Bool
  text : String
deriving DecidableEq, Repr

/-- A `<table>` fragment as cheerio sees it: the rows inside `<thead>` (if
any, in document order before the body) and the body rows (`<tbody>` rows,
or the rows sitting directly under the table — the HTML parser wraps the
latter in an implicit `tbody`).  Nested tables are not modelled. -/
structure TableIn where
  theadRows : List (List TCell)
  bodyRows : List (List TCell)
deriving DecidableEq, Repr

/-- The extracted table shape. -/
structure TableData where
  headers : List String
  rows : List (List String)
deriving DecidableEq, Repr

/-- Header extraction (lines 414-423): the selector
`'thead tr th, thead tr td, tr:first-child th'` collects every cell of every
`thead` row plus the `<th>` cells of the first body row, in document order;
when that yields nothing, the `<td>` cells of the first body row are
promoted instead. -/
def tableHeaders (t : TableIn) : List String :=
  let fromThead := (t.theadRows.flatten).map (fun c => jsTrim c.text)
  let fromFirstTh :=
    match t.bodyRows with
    | [] => []
    | r :: _ => (r.filter (fun c => c.th)).map (fun c => jsTrim c.text)
  let h := fromThead ++ fromFirstTh
  if h.isEmpty then
    match t.bodyRows with
    | [] => []
    | r :: _ => (r.filter (fun c => ¬ c.th)).map (fun c => jsTrim c.text)
  else h

/-- Keep a data row (lines 441-447): its cells' trimmed texts, provided at
least one cell is non-empty. -/
def rowKeep (r : List TCell) : Option (List String) :=
  let cells := r.map (fun c => jsTrim c.text)
  if cells.length > 0 ∧ cells.any (fun c => c.length > 0) then some cells else none

/-- Row extraction (lines 426-448): the selector `'tbody tr, tr'` yields
every `tr` once in document order (thead rows first); the row at index 0 is
skipped when its cell count and trimmed texts coincide with the extracted
headers; each kept row must have a non-empty cell. -/
def tableRows (headers : List String) : List (List TCell) → List (List String)
  | [] => []
  | r0 :: rest =>
    let tail := rest.filterMap rowKeep
    if ¬ headers.isEmpty ∧ r0.length = headers.length ∧
        r0.map (fun c => jsTrim c.text) = headers then
      tail
    else (rowKeep r0).toList ++ tail

/-- Full extraction of one table. -/
def extractTable (t : TableIn) : TableData :=
  let headers := tableHeaders t
  ⟨headers, tableRows headers (t.theadRows ++ t.bodyRows)⟩

-- ===== Download-link classification (/fetch, src/server.js 455-499) =====

/-- An anchor as the classifier sees it: its `href` attribute and its
trimmed visible text. -/
structure Anchor where
  href : String
  text : String
deriving DecidableEq, Repr

/-- A classified download link. -/
structure DLink where
  text : String
  url : String
  kind : String
deriving DecidableEq, Repr

/-- The type-classification chain (lines 466-486): file extension first,
then download-intent URL patterns, then download wording in the link text
combined with a document keyword. `textLower` is the trimmed lowercased
link text, `hrefLower` the lowercased href. -/
def classifyDownload (hrefLower textLower : String) : Option String :=
  if jsEndsWith hrefLower ".pdf" then some "pdf"
  else if jsEndsWith hrefLower ".xlsx" then some "xlsx"
  else if jsEndsWith hrefLower ".xls" then some "xls"
  else if jsEndsWith hrefLower ".csv" then some "csv"
  else if jsIncludes hrefLower "download" ∧
      (jsIncludes textLower "pdf" ∨ jsIncludes hrefLower "pdf") then some "pdf"
  else if jsIncludes hrefLower "sdm_process_download" then some "pdf"
  else if jsIncludes hrefLower "/descargar" ∨ jsIncludes hrefLower "/download" then
    if jsIncludes textLower "pdf" then some "pdf"
    else if jsIncludes textLower "excel" ∨ jsIncludes textLower "xlsx" then some "xlsx"
    else some "pdf"
  else if (jsIncludes textLower "descargar" ∨ jsIncludes textLower "download") ∧
      (jsIncludes textLower "pdf" ∨ jsIncludes textLower "boletín" ∨
       jsIncludes textLower "informe" ∨ jsIncludes textLower "reporte") then some "pdf"
  else none

/-- URL resolution for a classified link (line 489):
`href.startsWith('http') ? href : new URL(href, url).href`.  When the page
URL itself is not an absolute http(s) URL, `new URL` throws and the whole
`/fetch` request fails — no link is emitted at all — so that case resolves
to `none` here. -/
def resolveDownloadUrl (pageUrl href : String) : Option String :=
  if jsStartsWith href "http" then some href
  else (parseHttpAbs pageUrl).map (fun base => urlHref (resolveHref base href))

/-- The anchor loop (lines 459-499): classify, resolve, and push unless the
resolved URL was already seen (`seenUrls`). -/
def dlLoop (pageUrl : String) : List Anchor → List String → List DLink → List DLink
  | [], _, acc => acc
  | a :: as_, seen, acc =>
    if a.href = "" then dlLoop pageUrl as_ seen acc  -- `if (!href) return`
    else
      match classifyDownload (jsLower a.href) (jsLower (jsTrim a.text)) with
      | none => dlLoop pageUrl as_ seen acc
      | some ty =>
        match resolveDownloadUrl pageUrl a.href with
        | none => dlLoop pageUrl as_ seen acc
        | some fullUrl =>
          if seen.contains fullUrl then dlLoop pageUrl as_ seen acc
          else
            dlLoop pageUrl as_ (fullUrl :: seen)
              (acc ++ [⟨if jsTrim a.text = "" then a.href else jsTrim a.text, fullUrl, ty⟩])

/-- `downloadLinks` for a page: run the loop with an empty seen-set, then
cap at 20 (line 509). -/
def downloadLinksOf (pageUrl : String) (anchors : List Anchor) : List DLink :=
  (dlLoop pageUrl anchors [] []).take 20

-- ===== Embedded JSON data extraction (extractEmbeddedJsonData, 229-346) =====

/-- A JSON value as produced by `JSON.parse`.  Numbers keep their lexical
parts (sign+integer digits, fraction digits, exponent text); the conversion
to a binary float is not modelled, and no claim depends on it. -/
inductive Json where
  | null : Json
  | bool : Bool → Json
  | num : Int → String → String → Json
  | str : String → Json
  | arr : List Json → Json
  | obj : List (String × Json) → Json

/-- JSON whitespace. -/
def jWs (c : Char) : Bool := c = ' ' || c = '\t' || c = '\n' || c = '\r'

/-- Skip JSON whitespace. -/
def skipJWs (l : List Char) : List Char := l.dropWhile jWs

/-- Hex digit value. -/
def hexVal (c : Char) : Option Nat :=
  if '0' ≤ c ∧ c ≤ '9' then some (c.toNat - 48)
  else if 'a' ≤ c ∧ c ≤ 'f' then some (c.toNat - 87)
  else if 'A' ≤ c ∧ c ≤ 'F' then some (c.toNat - 55)
  else none

/-- Parse the remainder of a JSON string literal (after the opening quote). -/
def pJString : Nat → List Char → Option (List Char × List Char)
  | 0, _ => none
  | _, [] => none
  | fuel + 1, c :: rest =>
    if c = '"' then some ([], rest)
    else if c = '\\' then
      match rest with
      | [] => none
      | e :: rest2 =>
        if e = 'u' then
          match rest2 with
          | a :: b :: cc :: d :: rest3 =>
            match hexVal a, hexVal b, hexVal cc, hexVal d with
            | some x, some y, some z, some w =>
              (pJString fuel rest3).map
                (fun p => (Char.ofNat (((x * 16 + y) * 16 + z) * 16 + w) :: p.1, p.2))
            | _, _, _, _ => none
          | _ => none
        else
          match
            (if e = '"' then some '"'
             else if e = '\\' then some '\\'
             else if e = '/' then some '/'
             else if e = 'n' then some '\n'
             else if e = 't' then some '\t'
             else if e = 'r' then some '\r'
             else if e = 'b' then some (Char.ofNat 8)
             else if e = 'f' then some (Char.ofNat 12)
             else none) with
          | some ec => (pJString fuel rest2).map (fun p => (ec :: p.1, p.2))
          | none => none
    else (pJString fuel rest).map (fun p => (c :: p.1, p.2))

/-- Parse a JSON number (sign, digits, optional fraction and exponent). -/
def pJNumber (l : List Char) : Option (Json × List Char) :=
  let (neg, l1) :=
    match l with
    | '-' :: t => (true, t)
    | _ => (false, l)
  let ds := l1.takeWhile Char.isDigit
  if ds.isEmpty then none
  else
    let l2 := l1.drop ds.length
    let (fr, l3) :=
      match l2 with
      | '.' :: t =>
        let fds := t.takeWhile Char.isDigit
        (fds, t.drop fds.length)
      | _ => ([], l2)
    if (match l2 with | '.' :: _ => fr.isEmpty | _ => false) then none
    else
      let (ex, l4) :=
        match l3 with
        | 'e' :: t => pExp t
        | 'E' :: t => pExp t
        | _ => (some [], l3)
      match ex with
      | none => none
      | some exDigits =>
        let i : Int := (digitsToNat ds : Int)
        some (.num (if neg then -i else i) ⟨fr⟩ ⟨exDigits⟩, l4)
where
  pExp (t : List Char) : Option (List Char) × List Char :=
    let (sgn, t1) :=
      match t with
      | '+' :: u => (['+'], u)
      | '-' :: u => (['-'], u)
      | _ => ([], t)
    let eds := t1.takeWhile Char.isDigit
    if eds.isEmpty then (none, t) else (some (sgn ++ eds), t1.drop eds.length)

mutual
/-- Parse one JSON value (fuel-based recursive descent). -/
def pJValue : Nat → List Char → Option (Json × List Char)
  | 0, _ => none
  | fuel + 1, l =>
    match skipJWs l with
    | [] => none
    | c :: rest =>
      if c = '\x7b' then
        match skipJWs rest with
        | '\x7d' :: r2 => some (.obj [], r2)
        | r1 => (pJMembers fuel r1).map (fun p => (.obj p.1, p.2))
      else if c = '[' then
        match skipJWs rest with
        | ']' :: r2 => some (.arr [], r2)
        | r1 => (pJElems fuel r1).map (fun p => (.arr p.1, p.2))
      else if c = '"' then
        (pJString (fuel + 1) rest).map (fun p => (.str ⟨p.1⟩, p.2))
      else if chPrefix ['t', 'r', 'u', 'e'] (c :: rest) then
        some (.bool true, (c :: rest).drop 4)
      else if chPrefix ['f', 'a', 'l', 's', 'e'] (c :: rest) then
        some (.bool false, (c :: rest).drop 5)
      else if chPrefix ['n', 'u', 'l', 'l'] (c :: rest) then
        some (.null, (c :: rest).drop 4)
      else pJNumber (c :: rest)

/-- Parse the members of a JSON object (cursor past any leading whitespace,
first member expected). -/
def pJMembers : Nat → List Char → Option (List (String × Json) × List Char)
  | 0, _ => none
  | fuel + 1, l =>
    match l with
    | '"' :: rest =>
      match pJString (fuel + 1) rest with
      | none => none
      | some (key, r1) =>
        match skipJWs r1 with
        | ':' :: r2 =>
          match pJValue fuel r2 with
          | none => none
          | some (v, r3) =>
            match skipJWs r3 with
            | ',' :: r4 =>
              (pJMembers fuel (skipJWs r4)).map (fun p => ((⟨key⟩, v) :: p.1, p.2))
            | '\x7d' :: r4 => some ([(⟨key⟩, v)], r4)
            | _ => none
        | _ => none
    | _ => none

/-- Parse the elements of a JSON array (first element expected). -/
def pJElems : Nat → List Char → Option (List Json × List Char)
  | 0, _ => none
  | fuel + 1, l =>
    match pJValue fuel l with
    | none => none
    | some (v, r1) =>
      match skipJWs r1 with
      | ',' :: r2 => (pJElems fuel r2).map (fun p => (v :: p.1, p.2))
      | ']' :: r2 => some ([v], r2)
      | _ => none
end

/-- `JSON.parse(s)`: the whole string must be one JSON value. -/
def parseJson (s : String) : Option Json :=
  match pJValue (s.length + 10) s.data with
  | some (j, rest) => if (skipJWs rest).isEmpty then some j else none
  | none => none

/-- Case-insensitive prefix test on character lists (the `/i` regex flag). -/
def chPrefixCI : List Char → List Char → Bool
  | [], _ => true
  | _ :: _, [] => false
  | p :: ps, c :: cs => p.toLower = c.toLower && chPrefixCI ps cs

/-- The keyword alternation of `storeArrayPattern` (line 259). -/
def storeArrKws : List String :=
  ["lat", "lng", "latitude", "longitude", "address", "direccion", "ciudad",
   "city", "nombre", "name", "tienda", "store", "sucursal", "local"]

/-- Does the bracket-free segment between `[` and `]` match the body of
`storeArrayPattern`, i.e. `\s*\{A\}(\s*,\s*\{B\})*\s*` with a keyword inside
the first braced group?  Because the inner character classes exclude both
brackets but allow `\x7b`/`\x7d`, the first (greedy, backtracking) group can
always extend to the last `\x7d`; the whole body therefore matches exactly
when, after optional whitespace, a `\x7b` opens, the last non-whitespace
character is `\x7d`, and a keyword occurs (case-insensitively) in between. -/
def storeInnerOk (seg : List Char) : Bool :=
  match seg.dropWhile Char.isWhitespace with
  | c :: body1 =>
    c = '\x7b' &&
      (match body1.reverse.dropWhile Char.isWhitespace with
       | d :: bodyRev =>
         d = '\x7d' &&
           (let body := jsLower ⟨bodyRev.reverse⟩
            storeArrKws.any (fun k => jsIncludes body k))
       | [] => false)
  | [] => false

/-- The global scan of `storeArrayPattern` (lines 259-262): every match
starts at a `[`, contains no bracket, and ends at the next `]`; after a
match the scan resumes past it, as `exec` with `/g` does. -/
def scanStores (fuel : Nat) (l : List Char) : List String :=
  match fuel with
  | 0 => []
  | fuel + 1 =>
    match l with
    | [] => []
    | '[' :: rest =>
      let seg := rest.takeWhile (fun c => ¬ (c = '[' ∨ c = ']'))
      let rest2 := rest.drop seg.length
      (match rest2 with
       | ']' :: tail =>
         if storeInnerOk seg then
           (⟨'[' :: (seg ++ [']'])⟩ : String) :: scanStores fuel tail
         else scanStores fuel rest2
       | _ => scanStores fuel rest2)
    | _ :: t => scanStores fuel t

/-- The keyword regex applied to the joined keys of the sample element
(line 270). -/
def sampleKeyKws : List String :=
  ["lat", "lng", "address", "nombre", "name", "tienda", "store", "city",
   "ciudad", "direccion"]

/-- `sample && typeof sample === 'object' && keys-regex` (lines 268-270):
only a (non-null) object sample passes; its keys are joined with spaces,
lowercased and searched for a keyword.  (A JS array would also have
`typeof 'object'`, but its keys are the digit strings, which can never
contain a keyword.) -/
def sampleKeysOk : Json → Bool
  | .obj fields =>
    let joined := jsLower (String.intercalate " " (fields.map Prod.fst))
    sampleKeyKws.any (fun k => jsIncludes joined k)
  | _ => false

/-- Per match: `JSON.parse`, keep only non-empty arrays whose first element
looks like store data, and push all elements (lines 263-274); parse errors
are swallowed (line 275). -/
def storesOfMatch (m : String) : List Json :=
  match parseJson m with
  | some (.arr (x :: xs)) => if sampleKeysOk x then x :: xs else []
  | _ => []

/-- All stores mined from one script. -/
def storesFromScript (sc : String) : List Json :=
  ((scanStores (sc.length + 1) sc.data).map storesOfMatch).flatten

/-- A mined map marker (line 290): `parseFloat` of the matched numerals is
not modelled (floating point); the matched numeral text is kept instead. -/
structure MarkerRec where
  lat : String
  lng : String
  title : Option String
deriving DecidableEq, Repr

/-- Try the trigger alternation of `markerPattern` (line 281):
`new\s+google\.maps\.Marker`, `markers\.push` or `addMarker`,
case-insensitively; returns the remainder after the trigger. -/
def markerTrigger (l : List Char) : Option (List Char) :=
  if chPrefixCI "new".data l then
    let r := l.drop 3
    let ws := r.takeWhile Char.isWhitespace
    if ws.isEmpty then tryRest l else
      let r2 := r.drop ws.length
      if chPrefixCI "google.maps.marker".data r2 then some (r2.drop 18) else tryRest l
  else tryRest l
where
  tryRest (l : List Char) : Option (List Char) :=
    if chPrefixCI "markers.push".data l then some (l.drop 12)
    else if chPrefixCI "addmarker".data l then some (l.drop 9)
    else none

/-- Does `kw` occur (case-insensitively) in `l` with at least one character
after the occurrence? -/
def kwWithTail (kw : List Char) : List Char → Bool
  | [] => false
  | c :: t => (chPrefixCI kw (c :: t) && decide (kw.length < (c :: t).length)) || kwWithTail kw t

/-- The capture-group shape `[^}]+(?:lat|lng|position)[^}]+`: a keyword with
at least one character before and after, inside the brace-free group. -/
def markerGroupOk (g : List Char) : Bool :=
  match g with
  | [] => false
  | _ :: tail =>
    (["lat", "lng", "position"].map (fun s => s.data)).any (fun kw => kwWithTail kw tail)

/-- First match of `pat \s*:\s* run` in `g`, where `pat` is matched by
`patAt` (returning the remainder) and `run` is a non-empty run of the
characters accepted by `isRunChar`; returns the run.  This is the shape of
the three sub-regexes applied to the marker group (lines 285-287). -/
def firstColonMatch (fuel : Nat) (patAt : List Char → Option (List Char))
    (isRunChar : Char → Bool) (g : List Char) : Option (List Char) :=
  match fuel with
  | 0 => none
  | fuel + 1 =>
    match g with
    | [] => none
    | _ :: t =>
      match patAt g with
      | some r =>
        let r1 := r.dropWhile Char.isWhitespace
        (match r1 with
         | ':' :: r2 =>
           let r3 := r2.dropWhile Char.isWhitespace
           let run := r3.takeWhile isRunChar
           if run.isEmpty then firstColonMatch fuel patAt isRunChar t else some run
         | _ => firstColonMatch fuel patAt isRunChar t)
      | none => firstColonMatch fuel patAt isRunChar t

/-- `/lat[itude]*\s*:\s*([-\d.]+)/i`: `lat` followed by any characters from
the class `[itude]`. -/
def latPatAt (l : List Char) : Option (List Char) :=
  if chPrefixCI "lat".data l then
    some ((l.drop 3).dropWhile (fun c =>
      ['i', 't', 'u', 'd', 'e'].contains c.toLower))
  else none

/-- `/(?:lng|lon|longitude)\s*:\s*([-\d.]+)/i`, alternatives in order. -/
def lngPatAt (l : List Char) : Option (List Char) :=
  if chPrefixCI "lng".data l then some (l.drop 3)
  else if chPrefixCI "longitude".data l then some (l.drop 9)
  else if chPrefixCI "lon".data l then some (l.drop 3)
  else none

/-- A numeral character of the class `[-\d.]`. -/
def numRunChar (c : Char) : Bool := c.isDigit || c = '-' || c = '.'

/-- `/title\s*:\s*['"`]([^'"`]+)['"`]/i`: first match of a quoted title. -/
def titleInGroup (fuel : Nat) (g : List Char) : Option String :=
  match fuel with
  | 0 => none
  | fuel + 1 =>
    match g with
    | [] => none
    | _ :: t =>
      if chPrefixCI "title".data g then
        let r1 := (g.drop 5).dropWhile Char.isWhitespace
        match r1 with
        | ':' :: r2 =>
          (match r2.dropWhile Char.isWhitespace with
           | q :: r3 =>
             if q = '"' ∨ q = '\x27' ∨ q = '\x60' then
               let run := r3.takeWhile (fun c => ¬ (c = '"' ∨ c = '\x27' ∨ c = '\x60'))
               (match r3.drop run.length with
                | q2 :: _ =>
                  if (q2 = '"' ∨ q2 = '\x27' ∨ q2 = '\x60') ∧ ¬ run.isEmpty then
                    some ⟨run⟩
                  else titleInGroup fuel t
                | [] => titleInGroup fuel t)
             else titleInGroup fuel t
           | [] => titleInGroup fuel t)
        | _ => titleInGroup fuel t
      else titleInGroup fuel t

/-- A complete `markerPattern` match starting here: trigger, `\s*(\s*\x7b`,
then the brace-free group closed by `\x7d`; returns the group and the
remainder after the closing brace. -/
def markerMatchAt (l : List Char) : Option (List Char × List Char) :=
  match markerTrigger l with
  | none => none
  | some r =>
    let r1 := r.dropWhile Char.isWhitespace
    match r1 with
    | '(' :: r2 =>
      (match r2.dropWhile Char.isWhitespace with
       | '\x7b' :: r3 =>
         let grp := r3.takeWhile (fun c => ¬ c = '\x7d')
         (match r3.drop grp.length with
          | _ :: rest =>
            if markerGroupOk grp then some (grp, rest) else none
          | [] => none)
       | _ => none)
    | _ => none

/-- Extract one marker record from a matched group (lines 284-295): `lat`
and `lng` are required, `title` optional. -/
def markerOfGroup (grp : List Char) : Option MarkerRec :=
  match firstColonMatch (grp.length + 1) latPatAt numRunChar grp,
        firstColonMatch (grp.length + 1) lngPatAt numRunChar grp with
  | some lat, some lng => some ⟨⟨lat⟩, ⟨lng⟩, titleInGroup (grp.length + 1) grp⟩
  | _, _ => none

/-- Global scan of `markerPattern` over a script (lines 281-299). -/
def scanMarkers (fuel : Nat) (l : List Char) : List MarkerRec :=
  match fuel with
  | 0 => []
  | fuel + 1 =>
    match l with
    | [] => []
    | _ :: t =>
      match markerMatchAt l with
      | some (grp, rest) => (markerOfGroup grp).toList ++ scanMarkers fuel rest
      | none => scanMarkers fuel t

/-- The keyword alternation of `apiUrlPattern` (line 302). -/
def apiKws : List String := ["api", "json", "stores", "locations", "sucursales", "tiendas"]

/-- Is `c` one of the three quote characters of the pattern? -/
def isQuoteCh (c : Char) : Bool := c = '"' || c = '\x27' || c = '\x60'

/-- An `apiUrlPattern` match starting at a quote: optional `https?:`
(case-insensitive, original text kept), `//`, then a non-empty run free of
quotes and whitespace that contains a keyword after at least one character,
closed by any quote.  Returns the captured URL and the remainder after the
closing quote. -/
def apiMatchAt (l : List Char) : Option (String × List Char) :=
  match l with
  | q :: r =>
    if isQuoteCh q then
      let (schemeChars, r2) :=
        if chPrefixCI "https:".data r then (r.take 6, r.drop 6)
        else if chPrefixCI "http:".data r then (r.take 5, r.drop 5)
        else ([], r)
      if chPrefix "//".data r2 then
        let r3 := r2.drop 2
        let run := r3.takeWhile (fun c => ¬ (isQuoteCh c ∨ c.isWhitespace))
        (match r3.drop run.length with
         | q2 :: rest =>
           if isQuoteCh q2 ∧ ¬ run.isEmpty ∧
               (let lower := (jsLower ⟨run⟩).data
                apiKws.any (fun k => chSub k.data (lower.drop 1))) then
             some (⟨schemeChars ++ '/' :: '/' :: run⟩, rest)
           else none
         | [] => none)
      else none
    else none
  | [] => none

/-- Global scan of `apiUrlPattern` over a script (lines 302-308). -/
def scanApiUrls (fuel : Nat) (l : List Char) : List String :=
  match fuel with
  | 0 => []
  | fuel + 1 =>
    match l with
    | [] => []
    | _ :: t =>
      match apiMatchAt l with
      | some (u, rest) => u :: scanApiUrls fuel rest
      | none => scanApiUrls fuel t

/-- The `data-*` attributes mined from markup elements (lines 312-313). -/
def dataAttrNames : List String :=
  ["data-stores", "data-locations", "data-markers", "data-json"]

/-- What one parsed attribute value contributes to `jsonObjects` (lines
318-323): array elements are spread, objects (and `null`, which also has
`typeof 'object'`) are pushed whole, primitives are dropped. -/
def jsonObjPush : Json → List Json
  | .arr xs => xs
  | .obj fs => [.obj fs]
  | .null => [.null]
  | _ => []

/-- The `extractedData` accumulator (`locations` is declared in the source
but never appended to). -/
structure EmbAcc where
  stores : List Json
  locations : List Json
  markers : List MarkerRec
  jsonObjects : List Json
  apiUrls : List String

/-- The result of `extractEmbeddedJsonData` (lines 341-345). -/
structure Embedded where
  found : Bool
  stores : List Json
  locations : List Json
  markers : List MarkerRec
  jsonObjects : List Json
  apiUrls : List String
  totalItems : Nat

/-- Process one script's content (lines 242-309): skipped when shorter than
20 characters; otherwise the three scanners run and `apiUrls` entries are
deduplicated against everything accumulated so far. -/
def embedScript (acc : EmbAcc) (sc : String) : EmbAcc :=
  if sc.length < 20 then acc
  else
    { acc with
      stores := acc.stores ++ storesFromScript sc
      markers := acc.markers ++ scanMarkers (sc.length + 1) sc.data
      apiUrls := (scanApiUrls (sc.length + 1) sc.data).foldl
        (fun a u => if a.contains u then a else a ++ [u]) acc.apiUrls }

/-- Process one element carrying `data-*` attributes (lines 312-329). -/
def embedDataEl (acc : EmbAcc) (n : HNode) : EmbAcc :=
  dataAttrNames.foldl
    (fun a name =>
      match attrOf n name with
      | some v =>
        if v = "" then a
        else
          match parseJson v with
          | some j => { a with jsonObjects := a.jsonObjects ++ jsonObjPush j }
          | none => a
      | none => a)
    acc

/-- `extractEmbeddedJsonData(html)` (lines 229-346): scan every `<script>`'s
raw content, then the `data-*` attributes; `found` is computed from
`stores`, `markers`, `jsonObjects` and `apiUrls` (lines 336-339), and
`totalItems` from the first three (line 344). -/
def extractEmbeddedJsonData (doc : HForest) : Embedded :=
  let scripts := (selF (selTag "script") doc).map textOfN
  let acc1 := scripts.foldl embedScript ⟨[], [], [], [], []⟩
  let dataEls := selF
    (fun n => dataAttrNames.any (fun a => ¬ attrOf n a = none)) doc
  let acc2 := dataEls.foldl embedDataEl acc1
  let hasData :=
    decide (¬ acc2.stores.isEmpty) || decide (¬ acc2.markers.isEmpty) ||
    decide (¬ acc2.jsonObjects.isEmpty) || decide (¬ acc2.apiUrls.isEmpty)
  { found := hasData
    stores := acc2.stores
    locations := acc2.locations
    markers := acc2.markers
    jsonObjects := acc2.jsonObjects
    apiUrls := acc2.apiUrls
    totalItems := acc2.stores.length + acc2.markers.length + acc2.jsonObjects.length }

-- ===== Supporting lemmas =====

/-- `substring(0, n)` never exceeds `n` characters. -/
theorem jsSubstring_length_le (s : String) (n : Nat) : (jsSubstring s n).length ≤ n := by
  show (s.data.take n).length ≤ n
  simp [List.length_take]

/-- `substring(0, n)` is the identity on strings no longer than `n`. -/
theorem jsSubstring_of_le (s : String) (n : Nat) (h : s.length ≤ n) : jsSubstring s n = s := by
  cases s with
  | mk l =>
    show (⟨l.take n⟩ : String) = ⟨l⟩
    congr 1
    exact List.take_of_length_le h

/-- Internal links of a URL in a given world: what `extractPageContent`
would return for it, or nothing on failure. -/
def linkUrlsAt (oracle : String → FetchOutcome) (v : String) : List String :=
  match extractPageContent v (oracle v) with
  | .ok d => d.internalLinks.map ILink.url
  | .fail _ => []

/-- The depth-1 loop never touches the error list. -/
theorem innerLoop_errors (q : String) (mpps : Nat) (oracle : String → FetchOutcome)
    (pu : String) : ∀ ls st, (innerLoop q mpps oracle pu ls st).errors = st.errors
  | [], _ => rfl
  | l :: ls, st => by
    rw [innerLoop]
    split
    · rfl
    · split
      · exact innerLoop_errors q mpps oracle pu ls st
      · split
        · split
          · exact innerLoop_errors q mpps oracle pu ls _
          · exact innerLoop_errors q mpps oracle pu ls _
        · exact innerLoop_errors q mpps oracle pu ls st

/-- The depth-1 loop only ever appends to `visitedUrls`. -/
theorem innerLoop_visited_mono (q : String) (mpps : Nat) (oracle : String → FetchOutcome)
    (pu : String) : ∀ ls st u, u ∈ st.visited → u ∈ (innerLoop q mpps oracle pu ls st).visited
  | [], _, _, h => h
  | l :: ls, st, u, h => by
    rw [innerLoop]
    split
    · exact h
    · split
      · exact innerLoop_visited_mono q mpps oracle pu ls st u h
      · split
        · split
          · exact innerLoop_visited_mono q mpps oracle pu ls _ u (by simp [h])
          · exact innerLoop_visited_mono q mpps oracle pu ls _ u (by simp [h])
        · exact innerLoop_visited_mono q mpps oracle pu ls st u h

/-- Every URL the depth-1 loop adds to `visitedUrls` — i.e. every link it
fetches — comes from a link of the list that passed the relevance filter. -/
theorem innerLoop_visited_sound (q : String) (mpps : Nat) (oracle : String → FetchOutcome)
    (pu : String) : ∀ ls st u, u ∈ (innerLoop q mpps oracle pu ls st).visited →
      u ∈ st.visited ∨ ∃ l ∈ ls, l.url = u ∧ isRelevant q l.text = true
  | [], st, u, h => Or.inl h
  | l :: ls, st, u, h => by
    rw [innerLoop] at h
    split at h
    · exact Or.inl h
    · split at h
      · rcases innerLoop_visited_sound q mpps oracle pu ls st u h with h' | ⟨l', hl', he, hr⟩
        · exact Or.inl h'
        · exact Or.inr ⟨l', by simp [hl'], he, hr⟩
      · split at h
        · rename_i hrel
          split at h
          all_goals {
            rcases innerLoop_visited_sound q mpps oracle pu ls _ u h with h' | ⟨l', hl', he, hr⟩
            · simp at h'
              rcases h' with h'' | h''
              · exact Or.inl h''
              · exact Or.inr ⟨l, by simp, h''.symm, hrel⟩
            · exact Or.inr ⟨l', by simp [hl'], he, hr⟩
          }
        · rcases innerLoop_visited_sound q mpps oracle pu ls st u h with h' | ⟨l', hl', he, hr⟩
          · exact Or.inl h'
          · exact Or.inr ⟨l', by simp [hl'], he, hr⟩

/-- A relevant, not-yet-visited link with a fresh URL IS fetched by the
depth-1 loop whenever `maxPagesPerSite ≥ 2` (the stuck counter equals 1). -/
theorem innerLoop_visited_complete (q : String) (mpps : Nat) (oracle : String → FetchOutcome)
    (pu : String) : ∀ ls st l, 2 ≤ mpps → (ls.map ILink.url).Nodup → l ∈ ls →
      isRelevant q l.text = true → ¬ l.url ∈ st.visited →
      l.url ∈ (innerLoop q mpps oracle pu ls st).visited
  | [], _, l, _, _, hmem, _, _ => by simp at hmem
  | l' :: ls, st, l, h2, hnd, hmem, hrel, hfresh => by
    rw [innerLoop]
    have hcap : ¬ (1 ≥ mpps) := by omega
    rw [if_neg hcap]
    rcases List.mem_cons.mp hmem with rfl | htail
    · rw [if_neg (by simpa using hfresh)]
      rw [if_pos (by simp [hrel])]
      cases hx : extractPageContent l.url (oracle l.url) with
      | ok d =>
        exact innerLoop_visited_mono q mpps oracle pu ls _ l.url (by simp)
      | fail e =>
        exact innerLoop_visited_mono q mpps oracle pu ls _ l.url (by simp)
    · have hne : ¬ l.url = l'.url := by
        intro hbad
        have : l'.url ∈ ls.map ILink.url := hbad ▸ (List.mem_map.mpr ⟨l, htail, rfl⟩)
        simp [List.nodup_cons] at hnd
        exact hnd.1 _ htail hbad
      have hnd' : (ls.map ILink.url).Nodup := by
        simp [List.nodup_cons] at hnd
        exact hnd.2
      by_cases hv : st.visited.contains l'.url
      · rw [if_pos hv]
        exact innerLoop_visited_complete q mpps oracle pu ls st l h2 hnd' htail hrel hfresh
      · rw [if_neg hv]
        by_cases hr' : isRelevant q l'.text = true
        · rw [if_pos (by simp [hr'])]
          cases hx : extractPageContent l'.url (oracle l'.url) with
          | ok d =>
            exact innerLoop_visited_complete q mpps oracle pu ls _ l h2 hnd' htail hrel
              (by simp [hfresh, hne])
          | fail e =>
            exact innerLoop_visited_complete q mpps oracle pu ls _ l h2 hnd' htail hrel
              (by simp [hfresh, hne])
        · rw [if_neg (by simp [hr'])]
          exact innerLoop_visited_complete q mpps oracle pu ls st l h2 hnd' htail hrel hfresh

/-- Every page the depth-1 loop appends records a successful extraction of
its own URL, with `fullContent` taken from that extraction. -/
theorem innerLoop_pages_sound (q : String) (mpps : Nat) (oracle : String → FetchOutcome)
    (pu : String) : ∀ ls st p, p ∈ (innerLoop q mpps oracle pu ls st).pages →
      p ∈ st.pages ∨ (¬ p.url ∈ st.visited ∧
        ∃ d, extractPageContent p.url (oracle p.url) = .ok d ∧ p.fullContent = d.content)
  | [], st, p, h => Or.inl h
  | l :: ls, st, p, h => by
    rw [innerLoop] at h
    split at h
    · exact Or.inl h
    · split at h
      · exact innerLoop_pages_sound q mpps oracle pu ls st p h
      · split at h
        · rename_i hfresh hrel
          split at h
          · rename_i d hx
            rcases innerLoop_pages_sound q mpps oracle pu ls _ p h with h' | ⟨hnv, hd⟩
            · simp at h'
              rcases h' with h'' | h''
              · exact Or.inl h''
              · refine Or.inr ⟨?_, d, ?_, ?_⟩
                · rw [h'']
                  simpa using hfresh
                · rw [h'']
                  exact hx
                · rw [h'']
            · refine Or.inr ⟨?_, hd⟩
              intro hc
              exact hnv (by simp [hc])
          · rcases innerLoop_pages_sound q mpps oracle pu ls _ p h with h' | ⟨hnv, hd⟩
            · exact Or.inl h'
            · refine Or.inr ⟨?_, hd⟩
              intro hc
              exact hnv (by simp [hc])
        · exact innerLoop_pages_sound q mpps oracle pu ls st p h

/-- Error entries survive the rest of the depth-0 loop. -/
theorem outerLoop_errors_mono (q : String) (md mpps : Nat) (oracle : String → FetchOutcome) :
    ∀ rs st e, e ∈ st.errors → e ∈ (outerLoop q md mpps oracle rs st).errors
  | [], _, _, h => h
  | r :: rs, st, e, h => by
    rw [outerLoop]
    split
    · exact outerLoop_errors_mono q md mpps oracle rs st e h
    · split
      · refine outerLoop_errors_mono q md mpps oracle rs _ e ?_
        split
        · rw [innerLoop_errors]
          simpa using h
        · simpa using h
      · exact outerLoop_errors_mono q md mpps oracle rs _ e (by simp [h])

/-- Every entry of the final error list records a genuine failed extraction
of its URL. -/
theorem outerLoop_errors_sound (q : String) (md mpps : Nat) (oracle : String → FetchOutcome) :
    ∀ rs st e, e ∈ (outerLoop q md mpps oracle rs st).errors →
      e ∈ st.errors ∨ extractPageContent e.url (oracle e.url) = .fail e.error
  | [], _, _, h => Or.inl h
  | r :: rs, st, e, h => by
    rw [outerLoop] at h
    split at h
    · exact outerLoop_errors_sound q md mpps oracle rs st e h
    · split at h
      · rcases outerLoop_errors_sound q md mpps oracle rs _ e h with h' | h'
        · left
          revert h'
          split
          · rw [innerLoop_errors]
            simp
          · simp
        · exact Or.inr h'
      · rename_i err hx
        rcases outerLoop_errors_sound q md mpps oracle rs _ e h with h' | h'
        · simp at h'
          rcases h' with h'' | h''
          · exact Or.inl h''
          · right
            rw [h'']
            exact hx
        · exact Or.inr h'

/-- Every page of the final page list records a successful extraction of
its URL whose `content` became the page's `fullContent`. -/
theorem outerLoop_pages_sound (q : String) (md mpps : Nat) (oracle : String → FetchOutcome) :
    ∀ rs st p, p ∈ (outerLoop q md mpps oracle rs st).pages →
      p ∈ st.pages ∨
        ∃ d, extractPageContent p.url (oracle p.url) = .ok d ∧ p.fullContent = d.content
  | [], _, _, h => Or.inl h
  | r :: rs, st, p, h => by
    rw [outerLoop] at h
    split at h
    · exact outerLoop_pages_sound q md mpps oracle rs st p h
    · split at h
      · rename_i d hx
        rcases outerLoop_pages_sound q md mpps oracle rs _ p h with h' | h'
        · revert h'
          split
          · intro h'
            rcases innerLoop_pages_sound q mpps oracle r.url _ _ p h' with h2 | ⟨_, h2⟩
            · simp at h2
              rcases h2 with h3 | h3
              · exact Or.inl h3
              · refine Or.inr ⟨d, ?_, ?_⟩
                · rw [h3]
                  exact hx
                · rw [h3]
            · exact Or.inr h2
          · intro h'
            simp at h'
            rcases h' with h3 | h3
            · exact Or.inl h3
            · refine Or.inr ⟨d, ?_, ?_⟩
              · rw [h3]
                exact hx
              · rw [h3]
        · exact Or.inr h'
      · rcases outerLoop_pages_sound q md mpps oracle rs _ p h with h' | h'
        · exact Or.inl (by simpa using h')
        · exact Or.inr h'

/-- Every URL ever entered into `visitedUrls` is a depth-0 result URL or an
internal link produced somewhere in the world. -/
theorem outerLoop_visited_sound (q : String) (md mpps : Nat) (oracle : String → FetchOutcome) :
    ∀ rs st u, u ∈ (outerLoop q md mpps oracle rs st).visited →
      u ∈ st.visited ∨ u ∈ rs.map SearchResult.url ∨ ∃ v, u ∈ linkUrlsAt oracle v
  | [], _, _, h => Or.inl h
  | r :: rs, st, u, h => by
    rw [outerLoop] at h
    split at h
    · rcases outerLoop_visited_sound q md mpps oracle rs st u h with h' | h' | h'
      · exact Or.inl h'
      · exact Or.inr (Or.inl (by simp [h']))
      · exact Or.inr (Or.inr h')
    · split at h
      · rename_i d hx
        rcases outerLoop_visited_sound q md mpps oracle rs _ u h with h' | h' | h'
        · revert h'
          split
          · intro h'
            rcases innerLoop_visited_sound q mpps oracle r.url _ _ u h' with h2 | ⟨l, hl, he, _⟩
            · simp at h2
              rcases h2 with h3 | h3
              · exact Or.inl h3
              · exact Or.inr (Or.inl (by simp [h3]))
            · refine Or.inr (Or.inr ⟨r.url, ?_⟩)
              rw [linkUrlsAt, hx]
              exact List.mem_map.mpr ⟨l, hl, he⟩
          · intro h'
            simp at h'
            rcases h' with h3 | h3
            · exact Or.inl h3
            · exact Or.inr (Or.inl (by simp [h3]))
        · exact Or.inr (Or.inl (by simp [h']))
        · exact Or.inr (Or.inr h')
      · rcases outerLoop_visited_sound q md mpps oracle rs _ u h with h' | h' | h'
        · simp at h'
          rcases h' with h3 | h3
          · exact Or.inl h3
          · exact Or.inr (Or.inl (by simp [h3]))
        · exact Or.inr (Or.inl (by simp [h']))
        · exact Or.inr (Or.inr h')

/-- A depth-0 result whose extraction fails IS recorded in the error list,
provided its URL is fresh, appears only once among the results, and is not
an internal link anywhere in the world (so that no other visit can claim it
first). -/
theorem outerLoop_errors_complete (q : String) (md mpps : Nat)
    (oracle : String → FetchOutcome) :
    ∀ rs st r, r ∈ rs → (rs.map SearchResult.url).Nodup →
      (∃ err, extractPageContent r.url (oracle r.url) = .fail err) →
      ¬ r.url ∈ st.visited → (∀ v, ¬ r.url ∈ linkUrlsAt oracle v) →
      ∃ e ∈ (outerLoop q md mpps oracle rs st).errors, e.url = r.url
  | [], _, r, hmem, _, _, _, _ => by simp at hmem
  | r' :: rs, st, r, hmem, hnd, hfail, hfresh, hlf => by
    rcases List.mem_cons.mp hmem with rfl | htail
    · rw [outerLoop]
      rw [if_neg (by simpa using hfresh)]
      rcases hfail with ⟨err, herr⟩
      rw [herr]
      refine ⟨⟨r.url, err⟩, ?_, rfl⟩
      exact outerLoop_errors_mono q md mpps oracle rs _ _ (by simp)
    · have hne : ¬ r.url = r'.url := by
        intro hbad
        simp [List.nodup_cons] at hnd
        exact hnd.1 _ htail hbad
      have hnd' : (rs.map SearchResult.url).Nodup := by
        simp [List.nodup_cons] at hnd
        exact hnd.2
      rw [outerLoop]
      by_cases hv : st.visited.contains r'.url
      · rw [if_pos hv]
        exact outerLoop_errors_complete q md mpps oracle rs st r htail hnd' hfail hfresh hlf
      · rw [if_neg hv]
        cases hx : extractPageContent r'.url (oracle r'.url) with
        | ok d =>
          refine outerLoop_errors_complete q md mpps oracle rs _ r htail hnd' hfail ?_ hlf
          split
          · intro hc
            rcases innerLoop_visited_sound q mpps oracle r'.url _ _ _ hc with h2 | ⟨l, hl, he, _⟩
            · simp at h2
              rcases h2 with h3 | h3
              · exact hfresh h3
              · exact hne h3
            · refine hlf r'.url ?_
              rw [linkUrlsAt, hx]
              exact List.mem_map.mpr ⟨l, hl, he⟩
          · intro hc
            simp at hc
            rcases hc with h3 | h3
            · exact hfresh h3
            · exact hne h3
        | fail err' =>
          refine outerLoop_errors_complete q md mpps oracle rs _ r htail hnd' hfail ?_ hlf
          intro hc
          simp at hc
          rcases hc with h3 | h3
          · exact hfresh h3
          · exact hne h3

/-- Occurrence of `a` as a contiguous substring of `b`. -/
def occursIn (a b : String) : Prop := ∃ u v, b.data = u ++ a.data ++ v

/-- Occurrence is stable under prepending. -/
theorem occursIn_append_left (a b c : String) (h : occursIn a b) : occursIn a (c ++ b) := by
  rcases h with ⟨u, v, hv⟩
  refine ⟨c.data ++ u, v, ?_⟩
  show c.data ++ b.data = _
  rw [hv]
  simp

/-- Every member of a string list occurs in its concatenation. -/
theorem occursIn_strConcat (a : String) : ∀ l : List String, a ∈ l → occursIn a (strConcat l)
  | [], h => by simp at h
  | s :: rest, h => by
    rcases List.mem_cons.mp h with rfl | htail
    · exact ⟨[], (strConcat rest).data, rfl⟩
    · exact occursIn_append_left a (strConcat rest) s (occursIn_strConcat a rest htail)

/-- The download-link loop keeps resolved URLs unique, given that every URL
already in the accumulator is recorded in the seen-set. -/
theorem dlLoop_nodup (pageUrl : String) :
    ∀ anchors seen acc, (acc.map DLink.url).Nodup →
      (∀ u ∈ acc.map DLink.url, u ∈ seen) →
      ((dlLoop pageUrl anchors seen acc).map DLink.url).Nodup
  | [], _, _, hnd, _ => hnd
  | a :: anchors, seen, acc, hnd, hseen => by
    rw [dlLoop]
    split
    · exact dlLoop_nodup pageUrl anchors seen acc hnd hseen
    · split
      · exact dlLoop_nodup pageUrl anchors seen acc hnd hseen
      · split
        · exact dlLoop_nodup pageUrl anchors seen acc hnd hseen
        · rename_i ty _ fullUrl hres
          split
          · exact dlLoop_nodup pageUrl anchors seen acc hnd hseen
          · rename_i hnotseen
            refine dlLoop_nodup pageUrl anchors (fullUrl :: seen) _ ?_ ?_
            · rw [List.map_append]
              refine List.Nodup.append hnd (by simp) ?_
              intro u hu hu2
              simp at hu2
              rw [hu2] at hu
              exact hnotseen (by simpa using hseen _ hu)
            · intro u hu
              rw [List.map_append] at hu
              rcases List.mem_append.mp hu with h1 | h1
              · exact List.mem_cons_of_mem _ (hseen u h1)
              · simp at h1
                simp [h1]

/-- `embedScript` never touches the `locations` field. -/
theorem embedScript_locations (acc : EmbAcc) (sc : String) :
    (embedScript acc sc).locations = acc.locations := by
  rw [embedScript]
  split
  · rfl
  · rfl

/-- `embedDataEl` never touches the `locations` field. -/
theorem embedDataEl_locations (acc : EmbAcc) (n : HNode) :
    (embedDataEl acc n).locations = acc.locations := by
  rw [embedDataEl]
  induction dataAttrNames generalizing acc with
  | nil => rfl
  | cons a rest ih =>
    rw [List.foldl_cons, ih]
    split
    · split
      · rfl
      · split
        · rfl
        · rfl
    · rfl

/-- Folding either accumulator step leaves `locations` unchanged. -/
theorem foldl_locations_const {α : Type} (f : EmbAcc → α → EmbAcc)
    (hf : ∀ acc x, (f acc x).locations = acc.locations) :
    ∀ (l : List α) (acc : EmbAcc), (l.foldl f acc).locations = acc.locations
  | [], _ => rfl
  | x :: l, acc => by
    rw [List.foldl_cons, foldl_locations_const f hf l (f acc x), hf]

/-- The `locations` list of the heuristic extractor is always empty: the
source declares it but never appends to it. -/
theorem extractEmbeddedJsonData_locations (doc : HForest) :
    (extractEmbeddedJsonData doc).locations = [] := by
  rw [extractEmbeddedJsonData]
  simp only
  rw [foldl_locations_const embedDataEl embedDataEl_locations,
    foldl_locations_const embedScript embedScript_locations]

/-- Shape of a successful extraction: the delivered `content` is the 8000
character prefix of a main text whose full length is reported in
`contentLength`. -/
theorem extractPageContent_ok_shape (url : String) (o : FetchOutcome) (d : PageData)
    (h : extractPageContent url o = .ok d) :
    ∃ m : String, d.content = jsSubstring m 8000 ∧ d.contentLength = m.length := by
  cases o with
  | aborted => simp [extractPageContent] at h
  | netError msg => simp [extractPageContent] at h
  | response status ct body =>
    rw [extractPageContent] at h
    split at h
    · simp at h
    · split at h
      · simp at h
      · split at h
        · simp at h
        · rename_i base hbase
          simp only [PageResult.ok.injEq] at h
          refine ⟨crawlMainContent (removeF crawlNoise body), ?_, ?_⟩
          · rw [← h]
          · rw [← h]

-- ===== Claim theorems =====

/-- C4: the crawl-path fetcher classifies failures exactly: a fired timeout
becomes the error string `Timeout` (never a raw cancellation error), a
non-2xx status becomes `HTTP <status>` (so a 404 yields `HTTP 404`), and a
2xx response whose `Content-Type` is neither HTML nor XHTML becomes
`Not HTML content`. -/
theorem extractPageContent_error_classification (u : String) :
    extractPageContent u .aborted = .fail "Timeout"
    ∧ (∀ (status : Nat) (ct : String) (body : HForest),
        ¬ (200 ≤ status ∧ status ≤ 299) →
        extractPageContent u (.response status ct body) = .fail ("HTTP " ++ toString status))
    ∧ (∀ (ct : String) (body : HForest),
        extractPageContent u (.response 404 ct body) = .fail "HTTP 404")
    ∧ (∀ (status : Nat) (ct : String) (body : HForest), 200 ≤ status → status ≤ 299 →
        ¬ (jsIncludes ct "text/html" = true ∨ jsIncludes ct "application/xhtml" = true) →
        extractPageContent u (.response status ct body) = .fail "Not HTML content") := by
  refine ⟨rfl, ?_, ?_, ?_⟩
  · intro status ct body h
    rw [extractPageContent, if_pos h]
  · intro ct body
    rw [extractPageContent, if_pos (by omega)]
    decide
  · intro status ct body h1 h2 h3
    rw [extractPageContent, if_neg (not_not_intro ⟨h1, h2⟩), if_pos h3]

/-- Witness for the C4 theorem at concrete inputs. -/
theorem extractPageContent_error_classification_witness :
    extractPageContent "http://x.example/a" (.response 500 "text/html" (forestOf []))
      = .fail "HTTP 500"
    ∧ extractPageContent "http://x.example/a" (.response 200 "image/png" (forestOf []))
      = .fail "Not HTML content" :=
  ⟨(extractPageContent_error_classification "http://x.example/a").2.1 500 "text/html"
      (forestOf []) (by omega),
   (extractPageContent_error_classification "http://x.example/a").2.2.2 200 "image/png"
      (forestOf []) (by omega) (by omega) (by decide)⟩

/-- C10: a successful crawl-path extraction delivers at most 8000 characters
of main content (its `content` is the 8000-character prefix of the selected
main text) while `contentLength` reports the untruncated length; hence every
page record of a deep-search response carries at most 8000 characters of
`fullContent`. -/
theorem crawl_content_capped_at_8000 :
    (∀ (url : String) (o : FetchOutcome) (d : PageData), extractPageContent url o = .ok d →
        d.content.length ≤ 8000
        ∧ ∃ m : String, d.content = jsSubstring m 8000 ∧ d.contentLength = m.length)
    ∧ (∀ (q : String) (mr md mpps : Nat) (results : List SearchResult)
        (oracle : String → FetchOutcome) (p : PageRec),
        p ∈ (deepSearchRun q mr md mpps results oracle).pages →
        p.fullContent.length ≤ 8000) := by
  constructor
  · intro url o d h
    obtain ⟨m, hc, hl⟩ := extractPageContent_ok_shape url o d h
    exact ⟨hc ▸ jsSubstring_length_le m 8000, m, hc, hl⟩
  · intro q mr md mpps results oracle p hp
    rw [deepSearchRun] at hp
    rcases outerLoop_pages_sound q md mpps oracle _ _ p hp with h | ⟨d, hd, hfc⟩
    · simp at h
    · obtain ⟨m, hc, _⟩ := extractPageContent_ok_shape _ _ _ hd
      rw [hfc, hc]
      exact jsSubstring_length_le m 8000

/-- World for the C10 witness: a page whose whole body text is short. -/
def c10Doc : HForest := forestOf [.elem "body" [] (forestOf [.text "hello world content"])]

/-- The concrete extraction result of `c10Doc`. -/
def c10Data : PageData :=
  { url := "http://w.example/p", title := "", content := "hello world content",
    paragraphs := [], internalLinks := [], contentLength := 19 }

/-- Witness for the C10 theorem at a concrete successful extraction. -/
theorem crawl_content_capped_at_8000_witness :
    c10Data.content.length ≤ 8000
    ∧ ∃ m : String, c10Data.content = jsSubstring m 8000 ∧ c10Data.contentLength = m.length :=
  crawl_content_capped_at_8000.1 "http://w.example/p" (.response 200 "text/html" c10Doc)
    c10Data (by rfl)

/-- C7: noise removal is complete — after removing
script/style/nav/footer/header/aside/iframe/noscript (and, on the crawl
path, the ad/sidebar/menu classes), the surviving text nodes are exactly the
original text nodes that do not lie under a removed element, and no
noise-tagged element survives; all extractor outputs (title, textContent,
mainText, paragraphs) are computed from the cleaned tree. -/
theorem noise_removal_excludes_noise (doc : HForest) :
    textsF (removeF fetchNoise doc) = textsOutsideF fetchNoise doc
    ∧ textsF (removeF crawlNoise doc) = textsOutsideF crawlNoise doc
    ∧ (∀ t ∈ elemTagsF (removeF fetchNoise doc), ¬ noiseTags.contains t = true)
    ∧ (∀ t ∈ elemTagsF (removeF crawlNoise doc), ¬ noiseTags.contains t = true) := by
  refine ⟨texts_removeF _ doc, texts_removeF _ doc, ?_, ?_⟩
  · intro t ht hc
    obtain ⟨n', hpn, htag⟩ := removeF_clean fetchNoise doc t ht
    cases n' with
    | text s => simp [tagOf] at htag
    | elem tg a ch =>
      simp [tagOf] at htag
      rw [htag] at hpn
      rw [fetchNoise] at hpn
      simp [tagOf] at hpn
      exact hpn (by simpa using hc)
  · intro t ht hc
    obtain ⟨n', hpn, htag⟩ := removeF_clean crawlNoise doc t ht
    cases n' with
    | text s => simp [tagOf] at htag
    | elem tg a ch =>
      simp [tagOf] at htag
      rw [htag] at hpn
      rw [crawlNoise] at hpn
      simp [fetchNoise, tagOf] at hpn
      exact hpn.1 (by simpa using hc)

/-- World for the C7 witness. -/
def c7Doc : HForest :=
  forestOf [.elem "div" [] (forestOf [.text "keep this"]),
    .elem "script" [] (forestOf [.text "var dropped = 1;"])]

/-- Witness for the C7 theorem at a concrete document. -/
theorem noise_removal_excludes_noise_witness :
    ¬ noiseTags.contains "div" = true :=
  (noise_removal_excludes_noise c7Doc).2.2.1 "div" (by decide)

/-- C8: download-link classification deduplicates by resolved absolute URL —
for every anchor list (including one feeding the same anchor twice), no two
entries of `downloadLinks` share a `url`. -/
theorem downloadLinks_url_nodup (pageUrl : String) (anchors : List Anchor) :
    ((downloadLinksOf pageUrl anchors).map DLink.url).Nodup := by
  rw [downloadLinksOf, List.map_take]
  exact (List.take_sublist _ _).nodup (dlLoop_nodup pageUrl anchors [] [] (by simp) (by simp))

/-- C5: the consolidated digest is capped at 30000 characters (it is the
30000-character prefix of the untruncated digest); each page contributes at
most 2000 characters of its main content with the `...` marker appended
exactly when that content was truncated; and each visited page's section
(title, URL, source line) occurs in the untruncated digest in visit order. -/
theorem consolidated_digest_bounds (q : String) (pages : List PageRec) :
    (consolidatedTextOf q pages).length ≤ 30000
    ∧ consolidatedTextOf q pages = jsSubstring (digestFull q pages) 30000
    ∧ (∀ p ∈ pages, contentChunk p =
        (if p.fullContent.length ≤ 2000 then p.fullContent
         else jsSubstring p.fullContent 2000 ++ "..."))
    ∧ (∀ (i : Nat) (p : PageRec), pages.get? i = some p →
        occursIn (pageSection i p) (digestFull q pages)) := by
  refine ⟨jsSubstring_length_le _ _, rfl, ?_, ?_⟩
  · intro p _
    rw [contentChunk]
    by_cases h : p.fullContent.length ≤ 2000
    · rw [if_pos h, jsSubstring_of_le _ _ h, if_neg (by omega)]
      simp
    · rw [if_neg h, if_pos (by omega)]
  · intro i p hip
    rw [digestFull]
    refine occursIn_append_left _ _ _ (occursIn_strConcat _ _ ?_)
    exact List.mem_map.mpr ⟨(i, p), List.mem_enum_iff_get?.mpr hip, rfl⟩

/-- A concrete over-long page for the C5 witness. -/
def c5Page : PageRec :=
  { url := "http://a.example/p", title := "T", snippet := none, linkText := none,
    fullContent := ⟨List.replicate 2500 'x'⟩, paragraphs := [], source := some "bing",
    parentUrl := none, depth := 0 }

/-- Witness for the C5 theorem: the truncated chunk of a 2500-character page
carries the ellipsis marker, and the page's section occurs in the digest. -/
theorem consolidated_digest_bounds_witness :
    contentChunk c5Page = jsSubstring c5Page.fullContent 2000 ++ "..."
    ∧ occursIn (pageSection 0 c5Page) (digestFull "q" [c5Page]) := by
  have h := consolidated_digest_bounds "q" [c5Page]
  have hlen : c5Page.fullContent.length = 2500 := by
    show (List.replicate 2500 'x').length = 2500
    rw [List.length_replicate]
  refine ⟨?_, h.2.2.2 0 c5Page rfl⟩
  have h3 := h.2.2.1 c5Page (by simp)
  rw [h3, if_neg (by omega)]

/-- C6: when a table has no `<thead>` and its first row consists of `<td>`
cells, those cells' texts are promoted to `headers` and that first row —
whose texts then necessarily coincide with the promoted headers — is
excluded from `rows`; moreover every extracted row of any table keeps at
least one non-empty cell. -/
theorem table_header_promotion_and_row_invariant :
    (∀ (t : TableIn) (r0 : List TCell) (rest : List (List TCell)),
        t.theadRows = [] → t.bodyRows = r0 :: rest → ¬ r0 = [] →
        (∀ c ∈ r0, c.th = false) →
        tableHeaders t = r0.map (fun c => jsTrim c.text)
        ∧ (extractTable t).rows = rest.filterMap rowKeep)
    ∧ (∀ (t : TableIn) (row : List String), row ∈ (extractTable t).rows →
        ∃ c ∈ row, ¬ c = "") := by
  constructor
  · intro t r0 rest hthead hbody hne hth
    have hfilth : r0.filter (fun c => c.th) = [] := by
      rw [List.filter_eq_nil_iff]
      intro c hcmem
      simp [hth c hcmem]
    have hfiltd : r0.filter (fun c => !c.th) = r0 := by
      rw [List.filter_eq_self]
      intro c hcmem
      simp [hth c hcmem]
    have hhead : tableHeaders t = r0.map (fun c => jsTrim c.text) := by
      rw [tableHeaders, hthead, hbody]
      simp [hfilth, hfiltd, List.map_eq_nil_iff, hne]
    have hrows : (extractTable t).rows = tableRows (tableHeaders t) (r0 :: rest) := by
      rw [extractTable, hthead, hbody]
      simp
    refine ⟨hhead, ?_⟩
    rw [hrows, tableRows, if_pos ?_]
    refine ⟨?_, ?_, ?_⟩
    · rw [hhead]
      simp [List.isEmpty_iff, List.map_eq_nil_iff, hne]
    · rw [hhead, List.length_map]
    · rw [hhead]
  · intro t row hrow
    have hkeep : ∀ r : List TCell, rowKeep r = some row → ∃ c ∈ row, ¬ c = "" := by
      intro r hk
      rw [rowKeep] at hk
      split at hk
      · rename_i hcond
        obtain ⟨c, hcmem, hclen⟩ := List.any_eq_true.mp hcond.2
        simp only [Option.some.injEq] at hk
        refine ⟨c, hk ▸ hcmem, ?_⟩
        intro hbad
        rw [hbad] at hclen
        simp at hclen
      · simp at hk
    have aux : ∀ (headers : List String) (allRows : List (List TCell)),
        row ∈ tableRows headers allRows → ∃ c ∈ row, ¬ c = "" := by
      intro headers allRows hmem
      cases allRows with
      | nil => simp [tableRows] at hmem
      | cons r0 rest =>
        rw [tableRows] at hmem
        split at hmem
        · obtain ⟨r, _, hk⟩ := List.mem_filterMap.mp hmem
          exact hkeep r hk
        · rcases List.mem_append.mp hmem with h1 | h1
          · rw [Option.mem_toList] at h1
            exact hkeep _ h1
          · obtain ⟨r, _, hk⟩ := List.mem_filterMap.mp h1
            exact hkeep r hk
    exact aux (tableHeaders t) (t.theadRows ++ t.bodyRows) hrow

/-- A concrete thead-less table for the C6 witness. -/
def c6Table : TableIn :=
  { theadRows := []
    bodyRows := [[⟨false, "H1"⟩, ⟨false, "H2"⟩], [⟨false, "a"⟩, ⟨false, "b"⟩]] }

/-- Witness for the C6 theorem: the first row is promoted and excluded. -/
theorem table_header_promotion_witness :
    tableHeaders c6Table = ["H1", "H2"] ∧ (extractTable c6Table).rows = [["a", "b"]] := by
  have h := table_header_promotion_and_row_invariant.1 c6Table
    [⟨false, "H1"⟩, ⟨false, "H2"⟩] [[⟨false, "a"⟩, ⟨false, "b"⟩]] rfl rfl (by decide) (by decide)
  exact ⟨h.1, h.2⟩

/-- The scenario script of C9. -/
def c9Script : String :=
  "var stores = [\x7b\"name\":\"A\",\"lat\":1,\"lng\":2\x7d,\x7b\"name\":\"B\",\"lat\":3,\"lng\":4\x7d];"

/-- The scenario document of C9: one embedded script. -/
def c9Doc : HForest := forestOf [.elem "script" [] (forestOf [.text c9Script])]

/-- C9: the heuristic extractor's `found` flag is true exactly when one of
its output lists is non-empty (the `locations` list being provably always
empty, the four lists the source actually tests suffice); and on the
scenario script the `stores` list contains exactly the two store objects and
`found` is true. -/
theorem embedded_found_iff_and_store_scenario :
    (∀ doc : HForest, (extractEmbeddedJsonData doc).found = true ↔
        (¬ (extractEmbeddedJsonData doc).stores = [] ∨
         ¬ (extractEmbeddedJsonData doc).locations = [] ∨
         ¬ (extractEmbeddedJsonData doc).markers = [] ∨
         ¬ (extractEmbeddedJsonData doc).jsonObjects = [] ∨
         ¬ (extractEmbeddedJsonData doc).apiUrls = []))
    ∧ (extractEmbeddedJsonData c9Doc).stores =
        [.obj [("name", .str "A"), ("lat", .num 1 "" ""), ("lng", .num 2 "" "")],
         .obj [("name", .str "B"), ("lat", .num 3 "" ""), ("lng", .num 4 "" "")]]
    ∧ (extractEmbeddedJsonData c9Doc).found = true := by
  refine ⟨?_, rfl, rfl⟩
  intro doc
  have hloc := extractEmbeddedJsonData_locations doc
  have hfound : (extractEmbeddedJsonData doc).found =
      (decide (¬ (extractEmbeddedJsonData doc).stores.isEmpty) ||
       decide (¬ (extractEmbeddedJsonData doc).markers.isEmpty) ||
       decide (¬ (extractEmbeddedJsonData doc).jsonObjects.isEmpty) ||
       decide (¬ (extractEmbeddedJsonData doc).apiUrls.isEmpty)) := rfl
  rw [hfound, hloc]
  simp [List.isEmpty_iff]
  tauto

/-- An anchor node helper for concrete worlds. -/
def anchorTo (u t : String) : HNode := .elem "a" [("href", u)] (forestOf [.text t])

/-- An empty HTML body (extracts successfully with empty content). -/
def emptyDoc : HForest := forestOf []

/-- C1 world: the single depth-0 page carries three relevant internal
links. -/
def c1ParentDoc : HForest :=
  forestOf [.elem "body" [] (forestOf
    [anchorTo "http://a.example/q1" "combustibles uno",
     anchorTo "http://a.example/q2" "combustibles dos",
     anchorTo "http://a.example/q3" "combustibles tres"])]

/-- C1 world oracle: every fetch succeeds. -/
def c1Oracle : String → FetchOutcome := fun u =>
  if u = "http://a.example/p" then .response 200 "text/html" c1ParentDoc
  else .response 200 "text/html" emptyDoc

/-- C1 world search result. -/
def c1Result : SearchResult := ⟨"http://a.example/p", "Parent", "snippet", "bing"⟩

/-- C1: with `maxResults = 1` and `maxPagesPerSite = 2` the crawl visits 4
distinct URLs — one depth-0 page and all 3 of its relevant links — although
the claimed bound is `maxResults + maxResults*maxPagesPerSite = 3`: the
per-parent counter `sitePagesVisited` is initialised to 1 and never
incremented (src/server.js 977-980), so the per-parent cap never engages
once `maxPagesPerSite ≥ 2`. -/
theorem deepSearch_site_cap_never_engages :
    (deepSearchResponse "combustibles" 1 1 2 [c1Result] c1Oracle).totalPagesVisited = 4
    ∧ 1 + 1 * 2 < 4
    ∧ (deepSearchRun "combustibles" 1 1 2 [c1Result] c1Oracle).visited =
        ["http://a.example/p", "http://a.example/q1", "http://a.example/q2",
         "http://a.example/q3"] :=
  ⟨rfl, by omega, rfl⟩

/-- C2 counterexample world: the depth-0 page's only internal link is a
self-link (same URL), with clearly relevant link text. -/
def c2ParentDoc : HForest :=
  forestOf [.elem "body" [] (forestOf [anchorTo "http://a.example/p" "combustibles dos"])]

/-- C2 counterexample oracle. -/
def c2Oracle : String → FetchOutcome := fun _ => .response 200 "text/html" c2ParentDoc

/-- C2 counterexample search result. -/
def c2Result : SearchResult := ⟨"http://a.example/p", "Parent", "snippet", "bing"⟩

/-- C2 counterexample: a discovered internal link whose text passes the
relevance filter is nevertheless not fetched — its URL is already in
`visitedUrls` — refuting the claimed `if and only if` (here with
`maxDepth = 1`, `maxPagesPerSite = 3`): the crawl produces no depth-1
page at all. -/
theorem relevance_filter_iff_counterexample :
    isRelevant "combustibles" "combustibles dos" = true
    ∧ (match extractPageContent "http://a.example/p" (c2Oracle "http://a.example/p") with
       | .ok d => d.internalLinks
       | .fail _ => []) = [⟨"http://a.example/p", "combustibles dos"⟩]
    ∧ ((deepSearchRun "combustibles" 1 1 3 [c2Result] c2Oracle).pages.map
        (fun p => (p.url, p.depth))) = [("http://a.example/p", 0)]
    ∧ (deepSearchRun "combustibles" 1 1 3 [c2Result] c2Oracle).visited =
        ["http://a.example/p"] :=
  ⟨rfl, rfl, rfl, rfl⟩

/-- C2 amended: in the depth-1 loop, a URL is fetched (added to
`visitedUrls`) only for a listed link passing the relevance filter — a link
text containing, case-insensitively, a query word longer than 3 characters —
and conversely every relevant link whose URL is new (and not shared with
another listed link) is fetched, provided `maxPagesPerSite ≥ 2` (with the
stuck counter at 1, any smaller cap disables depth-1 expansion entirely). -/
theorem relevance_filter_amended (q : String) (mpps : Nat) (oracle : String → FetchOutcome)
    (pu : String) :
    (∀ (ls : List ILink) (st : CrawlSt) (u : String),
        u ∈ (innerLoop q mpps oracle pu ls st).visited →
        u ∈ st.visited ∨ ∃ l ∈ ls, l.url = u ∧ isRelevant q l.text = true)
    ∧ (∀ (ls : List ILink) (st : CrawlSt) (l : ILink), 2 ≤ mpps →
        (ls.map ILink.url).Nodup → l ∈ ls → isRelevant q l.text = true →
        ¬ l.url ∈ st.visited →
        l.url ∈ (innerLoop q mpps oracle pu ls st).visited) :=
  ⟨innerLoop_visited_sound q mpps oracle pu, innerLoop_visited_complete q mpps oracle pu⟩

/-- Witness for the C2 amended theorem: a fresh relevant link is fetched. -/
theorem relevance_filter_amended_witness :
    "http://a.example/q1" ∈ (innerLoop "combustibles" 3 c2Oracle "http://a.example/p"
      [⟨"http://a.example/q1", "combustibles uno"⟩] ⟨["http://a.example/p"], [], []⟩).visited :=
  (relevance_filter_amended "combustibles" 3 c2Oracle "http://a.example/p").2
    [⟨"http://a.example/q1", "combustibles uno"⟩] ⟨["http://a.example/p"], [], []⟩
    ⟨"http://a.example/q1", "combustibles uno"⟩ (by omega) (by decide) (by decide)
    (by decide) (by decide)

/-- C3 counterexample world: the depth-0 page succeeds and links to one
relevant internal page whose fetch returns HTTP 404. -/
def c3ParentDoc : HForest :=
  forestOf [.elem "body" [] (forestOf [anchorTo "http://a.example/q1" "combustibles uno"])]

/-- C3 counterexample oracle. -/
def c3Oracle : String → FetchOutcome := fun u =>
  if u = "http://a.example/p" then .response 200 "text/html" c3ParentDoc
  else .response 404 "text/html" emptyDoc

/-- C3 counterexample search result. -/
def c3Result : SearchResult := ⟨"http://a.example/p", "Parent", "snippet", "bing"⟩

/-- C3 counterexample: the depth-1 page `q1` is fetched (it is in
`visitedUrls`) and its fetch fails with `HTTP 404`, yet the response's error
list is empty (`errors` omitted entirely) — the failure is recorded nowhere,
refuting the claim that every per-page failure appears in `errors`. -/
theorem deepSearch_depth1_error_dropped :
    extractPageContent "http://a.example/q1" (c3Oracle "http://a.example/q1")
      = .fail "HTTP 404"
    ∧ (deepSearchRun "combustibles" 1 1 3 [c3Result] c3Oracle).visited =
        ["http://a.example/p", "http://a.example/q1"]
    ∧ (deepSearchRun "combustibles" 1 1 3 [c3Result] c3Oracle).errors = []
    ∧ ((deepSearchRun "combustibles" 1 1 3 [c3Result] c3Oracle).pages.map PageRec.url) =
        ["http://a.example/p"]
    ∧ (deepSearchResponse "combustibles" 1 1 3 [c3Result] c3Oracle).errors = none :=
  ⟨rfl, rfl, rfl, rfl, rfl⟩

/-- C3 amended: the deep-search response always reports `success = true`
regardless of page failures; every error entry records a genuine failed
fetch of its URL and such a URL never appears among the returned pages; and
every depth-0 result whose fetch fails is recorded in `errors` (assuming its
URL is not duplicated among the results nor reachable as an internal link).
Depth-1 fetch failures, by contrast, are silently dropped (see the
counterexample). -/
theorem deepSearch_partial_failure_amended (q : String) (mr md mpps : Nat)
    (results : List SearchResult) (oracle : String → FetchOutcome) :
    (deepSearchResponse q mr md mpps results oracle).success = true
    ∧ (∀ e ∈ (deepSearchRun q mr md mpps results oracle).errors,
        extractPageContent e.url (oracle e.url) = .fail e.error
        ∧ ¬ e.url ∈ (deepSearchRun q mr md mpps results oracle).pages.map PageRec.url)
    ∧ (∀ r ∈ results.take mr,
        ((results.take mr).map SearchResult.url).Nodup →
        (∃ err, extractPageContent r.url (oracle r.url) = .fail err) →
        (∀ v, ¬ r.url ∈ linkUrlsAt oracle v) →
        ∃ e ∈ (deepSearchRun q mr md mpps results oracle).errors, e.url = r.url) := by
  refine ⟨rfl, ?_, ?_⟩
  · intro e he
    rw [deepSearchRun] at he
    rcases outerLoop_errors_sound q md mpps oracle _ _ e he with h | hfail
    · simp at h
    · refine ⟨hfail, ?_⟩
      intro hmem
      rw [deepSearchRun] at hmem
      obtain ⟨p, hp, hpu⟩ := List.mem_map.mp hmem
      rcases outerLoop_pages_sound q md mpps oracle _ _ p hp with h | ⟨d, hd, _⟩
      · simp at h
      · rw [hpu] at hd
        rw [hfail] at hd
        simp at hd
  · intro r hr hnd hfail hlf
    rw [deepSearchRun]
    exact outerLoop_errors_complete q md mpps oracle _ _ r hr hnd hfail (by simp) hlf

/-- C3 amended witness oracle: every fetch 404s. -/
def c3wOracle : String → FetchOutcome := fun _ => .response 404 "text/html" emptyDoc

/-- C3 amended witness search result. -/
def c3wResult : SearchResult := ⟨"http://a.example/p", "Parent", "snippet", "bing"⟩

/-- Witness for the C3 amended theorem: a failing depth-0 result lands in
the error list. -/
theorem deepSearch_partial_failure_amended_witness :
    ∃ e ∈ (deepSearchRun "q" 1 1 3 [c3wResult] c3wOracle).errors,
      e.url = "http://a.example/p" := by
  refine (deepSearch_partial_failure_amended "q" 1 1 3 [c3wResult] c3wOracle).2.2
    c3wResult (by decide) (by decide) ⟨"HTTP 404", rfl⟩ ?_
  intro v
  have hx : extractPageContent v (c3wOracle v) = .fail "HTTP 404" := by
    show extractPageContent v (.response 404 "text/html" emptyDoc) = .fail "HTTP 404"
    rw [extractPageContent, if_pos (by omega)]
    decide
  rw [linkUrlsAt, hx]
  simp
